import Mathlib

/-!
Shallow embedding of the real-time pairing and signaling subsystem of
`backend/server.py` (TalkNow): the `RateLimiter` class, the
`MatchmakingManager` class, the WebSocket connection registry and the
message handlers of `websocket_endpoint`.  Timestamps and abuse scores
are modelled as exact rationals; Python dicts keyed by strings are
modelled as association lists with insertion-order semantics (updating
an existing key keeps its position, a new key is appended), matching
CPython dict enumeration order.
-/

namespace Server

/-- Per-client state held by `RateLimiter`: the `requests[client_id]` list of
timestamps, the `abuse_scores[client_id]` float (default 0), and the
`blocked_ips[client_id]` expiry when present. -/
structure RateState where
  requests : List ℚ
  abuse_score : ℚ
  blocked_until : Option ℚ
deriving Repr, DecidableEq

/-- The fresh state a `defaultdict` produces for an unseen client. -/
def RateState.init : RateState := ⟨[], 0, none⟩

/-- `RateLimiter.block_client`: `self.blocked_ips[client_id] = time.time() + duration_seconds`. -/
def block_client (st : RateState) (now duration_seconds : ℚ) : RateState :=
  { st with blocked_until := some (now + duration_seconds) }

/-- `RateLimiter.is_blocked`: true while a stored expiry lies in the future;
a found-but-expired entry is deleted as a side effect. -/
def is_blocked (st : RateState) (now : ℚ) : RateState × Bool :=
  match st.blocked_until with
  | some e => if now < e then (st, true) else ({ st with blocked_until := none }, false)
  | none => (st, false)

/-- `RateLimiter.check_rate_limit`: prune timestamps `t` with `t ≤ now - window`
(the code keeps `t > window_start`), then deny and bump the abuse score when the
remaining count reaches `limit` (blocking 600 s when the bumped score is ≥ 5),
otherwise record `now` and admit. -/
def check_rate_limit (st : RateState) (now : ℚ) (limit : ℕ) (window : ℚ) :
    RateState × Bool :=
  let reqs := st.requests.filter (fun t => now - window < t)
  if limit ≤ reqs.length then
    let score := st.abuse_score + 1
    let st' : RateState :=
      { requests := reqs, abuse_score := score, blocked_until := st.blocked_until }
    (if 5 ≤ score then block_client st' now 600 else st', false)
  else
    ({ st with requests := reqs ++ [now] }, true)

/-- `RateLimiter.record_suspicious_activity`: add `severity` to the abuse
score; when the new score is ≥ 10, block for 3600 s and reset the score to 0. -/
def record_suspicious_activity (st : RateState) (now severity : ℚ) : RateState :=
  let score := st.abuse_score + severity
  if 10 ≤ score then
    { block_client { st with abuse_score := score } now 3600 with abuse_score := 0 }
  else
    { st with abuse_score := score }

/-- The operations of the rate limiter touching one client's state, each
tagged with the wall-clock instant at which it runs. -/
inductive RateOp where
  | check (now : ℚ) (limit : ℕ) (window : ℚ)
  | suspicious (now severity : ℚ)
  | blockedQuery (now : ℚ)
deriving Repr, DecidableEq

/-- Apply one rate-limiter operation to a client's state. -/
def applyRateOp (st : RateState) : RateOp → RateState
  | .check now limit window => (check_rate_limit st now limit window).1
  | .suspicious now severity => record_suspicious_activity st now severity
  | .blockedQuery now => (is_blocked st now).1

/-! ## MatchmakingManager -/

/-- One waiting participant's record in `MatchmakingManager.queue`
(`self.queue[user_id] = {...}` in `add_to_queue`).  `gender` and
`gender_preference` are the optional string fields; a `some ""` is falsy in
Python, see `truthyOpt`. -/
structure QueueEntry where
  user_id : String
  interests : List String
  prefer_video : Bool
  is_premium : Bool
  is_trial : Bool
  gender : Option String
  gender_preference : Option String
deriving Repr, DecidableEq

/-- Python truthiness of an optional string: `None` and `""` are falsy. -/
def truthyOpt : Option String → Bool
  | none => false
  | some s => !(s == "")

/-- The queue is a Python dict keyed by `user_id`; enumeration order is
insertion order, and assigning an existing key keeps its position. -/
def Queue := List QueueEntry

/-- `MatchmakingManager.add_to_queue`: `self.queue[user_id] = entry` — replace
in place when the key exists, append otherwise. -/
def add_to_queue (q : List QueueEntry) (e : QueueEntry) : List QueueEntry :=
  if q.any (fun x => x.user_id == e.user_id) then
    q.map (fun x => if x.user_id == e.user_id then e else x)
  else
    q ++ [e]

/-- `MatchmakingManager.remove_from_queue`: delete the key if present. -/
def remove_from_queue (q : List QueueEntry) (uid : String) : List QueueEntry :=
  q.filter (fun x => !(x.user_id == uid))

/-- The bidirectional premium-gated gender filter of `find_match`: a candidate
is skipped when the querying entry is premium with a (truthy) gender
preference the candidate's gender does not equal, or symmetrically. -/
def passesGenderFilter (u c : QueueEntry) : Bool :=
  !(u.is_premium && truthyOpt u.gender_preference && !(c.gender == u.gender_preference)) &&
  !(c.is_premium && truthyOpt c.gender_preference && !(u.gender == c.gender_preference))

/-- The compatibility score `find_match` computes for a non-excluded
candidate `c` against the querying entry `u`. -/
def score (u c : QueueEntry) : ℕ :=
  10 * (u.interests.toFinset ∩ c.interests.toFinset).card
    + (if u.prefer_video == c.prefer_video then 5 else 0)
    + (if c.is_premium || c.is_trial then 3 else 0)

/-- The loop body of `find_match`: fold over the queue in enumeration order,
skipping self and filtered candidates, replacing the best on a strictly
greater score (`best_score` starts at `-1`). -/
def find_match_aux (u : QueueEntry) : List QueueEntry → Option String → Int → Option String
  | [], best, _ => best
  | c :: rest, best, bestScore =>
    if c.user_id == u.user_id then
      find_match_aux u rest best bestScore
    else if !passesGenderFilter u c then
      find_match_aux u rest best bestScore
    else if bestScore < (score u c : Int) then
      find_match_aux u rest (some c.user_id) (score u c)
    else
      find_match_aux u rest best bestScore

/-- `MatchmakingManager.find_match`: `None` when the caller is not queued,
otherwise the best-scoring other entry (`best_score` initialised to `-1`). -/
def find_match (q : List QueueEntry) (user_id : String) : Option String :=
  match q.find? (fun e => e.user_id == user_id) with
  | none => none
  | some u => find_match_aux u q none (-1)

/-! ## Connection registry (`websocket_connections`) -/

/-- `websocket_connections[user_id] = websocket` on accept: a dict assignment,
replacing any prior handle in place.  Channels are identified by a number. -/
def register_connection (r : List (String × ℕ)) (uid : String) (h : ℕ) :
    List (String × ℕ) :=
  if r.any (fun p => p.1 == uid) then
    r.map (fun p => if p.1 == uid then (uid, h) else p)
  else
    r ++ [(uid, h)]

/-- The `finally` block of `websocket_endpoint`:
`if user_id in websocket_connections: del websocket_connections[user_id]` —
a delete keyed only by identity, never comparing the stored handle. -/
def teardown_unregister (r : List (String × ℕ)) (uid : String) :
    List (String × ℕ) :=
  if r.any (fun p => p.1 == uid) then r.filter (fun p => !(p.1 == uid)) else r

/-- Dict lookup in `websocket_connections`. -/
def lookup_connection (r : List (String × ℕ)) (uid : String) : Option ℕ :=
  (r.find? (fun p => p.1 == uid)).map (fun p => p.2)

/-! ## WebSocket signaling handlers -/

/-- The verdict returned by the external moderation collaborator
(`ModerationResult` in the source; `categories` is unused by the relay). -/
structure ModerationResult where
  is_safe : Bool
  confidence : ℚ
  action : String
deriving Repr, DecidableEq

/-- A `db.chat_sessions` document as created by the `find_match` branch
(timestamps omitted: no claim mentions them). -/
structure SessionDoc where
  id : String
  user1_id : String
  user2_id : String
  status : String
  chat_type : String
deriving Repr, DecidableEq

/-- A `db.chat_messages` document as persisted by the `chat_message` branch. -/
structure MsgDoc where
  id : String
  session_id : Option String
  sender_id : String
  content : String
  is_flagged : Bool
  moderation_score : ℚ
deriving Repr, DecidableEq

/-- The shared mutable state the WebSocket handlers touch: the matchmaking
queue, the connection dict, the `active_sessions` dict
(`session_id ↦ (user1, user2)`), and the two audit collections. -/
structure ServerState where
  queue : List QueueEntry
  connections : List (String × ℕ)
  active_sessions : List (String × String × String)
  chat_sessions : List SessionDoc
  chat_messages : List MsgDoc
deriving Repr, DecidableEq

/-- Outbound wire messages produced by the handlers. -/
inductive OutMsg where
  | matched (session_id partner_id chat_type : String)
  | waiting (queue_size : ℕ)
  | forward (t payload from_user : String)
  | chatMessage (content from_user : String) (is_warned : Bool)
  | messageBlocked (reason : String)
  | partnerDisconnected
  | readyToMatch
deriving Repr, DecidableEq

/-- The queue entry the `find_match` WebSocket branch passes to
`add_to_queue(user_id, interests, prefer_video, False, use_trial)`:
`is_premium` is the literal `False` and the `gender`/`gender_preference`
parameters take their `None` defaults. -/
def ws_queue_entry (user_id : String) (interests : List String)
    (prefer_video use_trial : Bool) : QueueEntry :=
  ⟨user_id, interests, prefer_video, false, use_trial, none, none⟩

/-- The `find_match` branch of `websocket_endpoint`: enqueue, try to match;
on a hit create the session, dequeue both and notify both sides; on a miss
report `waiting` with the current queue size. -/
def handle_find_match (st : ServerState) (user_id : String)
    (interests : List String) (prefer_video use_trial : Bool)
    (fresh_session_id : String) : ServerState × List (String × OutMsg) :=
  let q1 := add_to_queue st.queue (ws_queue_entry user_id interests prefer_video use_trial)
  match find_match q1 user_id with
  | some match_id =>
      let chat_type := if prefer_video then "video" else "text"
      let sdoc : SessionDoc := ⟨fresh_session_id, user_id, match_id, "active", chat_type⟩
      let q2 := remove_from_queue (remove_from_queue q1 user_id) match_id
      let partnerSends :=
        if st.connections.any (fun c => c.1 == match_id) then
          [(match_id, OutMsg.matched fresh_session_id user_id chat_type)]
        else []
      ({ st with queue := q2,
                 chat_sessions := st.chat_sessions ++ [sdoc],
                 active_sessions := st.active_sessions ++ [(fresh_session_id, user_id, match_id)] },
       (user_id, OutMsg.matched fresh_session_id match_id chat_type) :: partnerSends)
  | none =>
      ({ st with queue := q1 }, [(user_id, OutMsg.waiting q1.length)])

/-- The `offer`/`answer`/`ice-candidate` branch: forward verbatim to the named
partner when it is connected, tagging the sender. -/
def handle_signal (st : ServerState) (user_id t payload : String)
    (partner_id : Option String) : ServerState × List (String × OutMsg) :=
  match partner_id with
  | some p =>
      if truthyOpt (some p) && st.connections.any (fun c => c.1 == p) then
        (st, [(p, OutMsg.forward t payload user_id)])
      else (st, [])
  | none => (st, [])

/-- The `chat_message` branch: on a `"block"` verdict answer the sender with
`message_blocked` and do nothing else; otherwise persist the message and
forward it to a connected partner with `is_warned = (action == "warn")`. -/
def handle_chat_message (st : ServerState) (user_id : String)
    (session_id : Option String) (content : String) (partner_id : Option String)
    (moderation : ModerationResult) (fresh_msg_id : String) :
    ServerState × List (String × OutMsg) :=
  if moderation.action == "block" then
    (st, [(user_id, OutMsg.messageBlocked "Content violates guidelines")])
  else
    let doc : MsgDoc :=
      ⟨fresh_msg_id, session_id, user_id, content, !moderation.is_safe, moderation.confidence⟩
    let st' := { st with chat_messages := st.chat_messages ++ [doc] }
    match partner_id with
    | some p =>
        if truthyOpt (some p) && st.connections.any (fun c => c.1 == p) then
          (st', [(p, OutMsg.chatMessage content user_id (moderation.action == "warn"))])
        else (st', [])
    | none => (st', [])

/-- `update_one` on `db.chat_sessions`: set `status = "ended"` on the first
document with the given id. -/
def mark_session_ended : List SessionDoc → String → List SessionDoc
  | [], _ => []
  | d :: rest, sid =>
      if d.id == sid then { d with status := "ended" } :: rest
      else d :: mark_session_ended rest sid

/-- The `skip`/`disconnect` branch: when a (truthy) `session_id` is supplied,
mark that session ended and drop it from `active_sessions`; when a (truthy)
`partner_id` names a connected participant, deliver `partner_disconnected`;
`skip` additionally answers the caller with `ready_to_match`.  No check
relates the sender to the session or the partner. -/
def handle_skip_disconnect (st : ServerState) (user_id : String) (isSkip : Bool)
    (session_id partner_id : Option String) : ServerState × List (String × OutMsg) :=
  let st1 :=
    match session_id with
    | some sid =>
        if sid == "" then st
        else { st with chat_sessions := mark_session_ended st.chat_sessions sid,
                       active_sessions := st.active_sessions.filter (fun p => !(p.1 == sid)) }
    | none => st
  let sends1 :=
    match partner_id with
    | some p =>
        if truthyOpt (some p) && st.connections.any (fun c => c.1 == p) then
          [(p, OutMsg.partnerDisconnected)]
        else []
    | none => []
  let sends2 := if isSkip then [(user_id, OutMsg.readyToMatch)] else []
  (st1, sends1 ++ sends2)

/-- One inbound frame of the message loop.  External nondeterminism (the
moderation verdict, fresh UUIDs) rides on the constructor.  `malformed`
stands for a frame that `json.loads` (or the `message["type"]` access)
rejects; `unknown` is a well-formed record whose type matches no branch. -/
inductive InMsg where
  | malformed
  | unknown (t : String)
  | findMatch (interests : List String) (prefer_video use_trial : Bool)
      (fresh_session_id : String)
  | signal (t : String) (partner_id : Option String) (payload : String)
  | chatMsg (session_id : Option String) (content : String)
      (partner_id : Option String) (moderation : ModerationResult)
      (fresh_msg_id : String)
  | skipMsg (session_id partner_id : Option String)
  | disconnectMsg (session_id partner_id : Option String)
deriving Repr, DecidableEq

/-- Dispatch of one message inside the `while True` loop.  `none` means the
dispatch raised (only `malformed` does): the exception escapes the loop. -/
def handle_message (st : ServerState) (user_id : String) :
    InMsg → Option (ServerState × List (String × OutMsg))
  | .malformed => none
  | .unknown _ => some (st, [])
  | .findMatch interests pv ut sid =>
      some (handle_find_match st user_id interests pv ut sid)
  | .signal t pid payload => some (handle_signal st user_id t payload pid)
  | .chatMsg sid content pid verdict mid =>
      some (handle_chat_message st user_id sid content pid verdict mid)
  | .skipMsg sid pid => some (handle_skip_disconnect st user_id true sid pid)
  | .disconnectMsg sid pid => some (handle_skip_disconnect st user_id false sid pid)

/-- Why the receive loop stopped: the transport closed
(`WebSocketDisconnect`), or an exception escaped the dispatch and was caught
by the outer `except Exception` handler, which logs an error. -/
inductive LoopExit where
  | streamEnded
  | errored
deriving Repr, DecidableEq

/-- Outcome of running the loop on an inbound stream. -/
structure LoopResult where
  state : ServerState
  sends : List (String × OutMsg)
  consumed : ℕ
  exitKind : LoopExit
  errorLogged : Bool
deriving Repr, DecidableEq

/-- The `while True` receive loop: process frames until the stream ends or a
dispatch raises.  A raising frame is consumed, the error is logged, and no
later frame is processed. -/
def runLoop (st : ServerState) (user_id : String) : List InMsg → LoopResult
  | [] => ⟨st, [], 0, .streamEnded, false⟩
  | m :: rest =>
    match handle_message st user_id m with
    | none => ⟨st, [], 1, .errored, true⟩
    | some (st', sends) =>
        let r := runLoop st' user_id rest
        ⟨r.state, sends ++ r.sends, r.consumed + 1, r.exitKind, r.errorLogged⟩

/-- The `finally` teardown: delete the connection entry by key and dequeue. -/
def ws_teardown (st : ServerState) (user_id : String) : ServerState :=
  { st with connections := teardown_unregister st.connections user_id,
            queue := remove_from_queue st.queue user_id }

/-- A user profile as the external profile collaborator resolves it
(`db.users`: the `is_premium` and `gender` fields the HTTP `join_queue`
route reads). -/
structure Profile where
  is_premium : Bool
  gender : Option String
deriving Repr, DecidableEq

/-! ## Characterisation of `find_match` -/

/-- The candidates the `find_match` loop actually scores: every queued entry
other than the caller that passes the bidirectional gender filter, in
enumeration order. -/
def candFilter (u : QueueEntry) (q : List QueueEntry) : List QueueEntry :=
  q.filter (fun c => !(c.user_id == u.user_id) && passesGenderFilter u c)

/-- The loop of `find_match` restricted to already-admitted candidates. -/
def bestLoop (u : QueueEntry) : List QueueEntry → Option String → Int → Option String
  | [], best, _ => best
  | c :: rest, best, bestScore =>
    if bestScore < (score u c : Int) then bestLoop u rest (some c.user_id) (score u c)
    else bestLoop u rest best bestScore

/-- The first entry of maximal score (later entries win only on a strictly
greater score). -/
def firstMax (u : QueueEntry) : List QueueEntry → Option QueueEntry
  | [] => none
  | c :: rest =>
    match firstMax u rest with
    | none => some c
    | some d => if score u c < score u d then some d else some c

theorem find_match_aux_eq_bestLoop (u : QueueEntry) (l : List QueueEntry)
    (b : Option String) (bs : Int) :
    find_match_aux u l b bs = bestLoop u (candFilter u l) b bs := by
  induction l generalizing b bs with
  | nil => rfl
  | cons c rest ih =>
    by_cases h1 : (c.user_id == u.user_id) = true
    · have hf : candFilter u (c :: rest) = candFilter u rest := by
        simp [candFilter, List.filter_cons, h1]
      rw [hf]
      show (if (c.user_id == u.user_id) = true then find_match_aux u rest b bs
        else if (!passesGenderFilter u c) = true then find_match_aux u rest b bs
        else if bs < (score u c : Int) then
          find_match_aux u rest (some c.user_id) (score u c)
        else find_match_aux u rest b bs) = bestLoop u (candFilter u rest) b bs
      rw [if_pos h1]
      exact ih b bs
    · by_cases h2 : passesGenderFilter u c = true
      · have hf : candFilter u (c :: rest) = c :: candFilter u rest := by
          simp [candFilter, List.filter_cons, h1, h2]
        rw [hf]
        show (if (c.user_id == u.user_id) = true then find_match_aux u rest b bs
          else if (!passesGenderFilter u c) = true then find_match_aux u rest b bs
          else if bs < (score u c : Int) then
            find_match_aux u rest (some c.user_id) (score u c)
          else find_match_aux u rest b bs) =
          (if bs < (score u c : Int) then
            bestLoop u (candFilter u rest) (some c.user_id) (score u c)
          else bestLoop u (candFilter u rest) b bs)
        rw [if_neg h1, if_neg (by simp [h2])]
        by_cases h3 : bs < (score u c : Int)
        · rw [if_pos h3, if_pos h3]
          exact ih _ _
        · rw [if_neg h3, if_neg h3]
          exact ih b bs
      · have hf : candFilter u (c :: rest) = candFilter u rest := by
          simp [candFilter, List.filter_cons, h1, h2]
        rw [hf]
        show (if (c.user_id == u.user_id) = true then find_match_aux u rest b bs
          else if (!passesGenderFilter u c) = true then find_match_aux u rest b bs
          else if bs < (score u c : Int) then
            find_match_aux u rest (some c.user_id) (score u c)
          else find_match_aux u rest b bs) = bestLoop u (candFilter u rest) b bs
        rw [if_neg h1, if_pos (by simp [h2])]
        exact ih b bs

/-- Resolve a best-so-far accumulator against the first maximum of the
remaining candidates. -/
def resolveBest (u : QueueEntry) (b : Option String) (bs : Int) :
    Option QueueEntry → Option String
  | none => b
  | some d => if bs < (score u d : Int) then some d.user_id else b

theorem firstMax_cons (u : QueueEntry) (c : QueueEntry) (rest : List QueueEntry) :
    firstMax u (c :: rest) =
      match firstMax u rest with
      | none => some c
      | some d => if score u c < score u d then some d else some c := rfl

theorem firstMax_cons_none (u : QueueEntry) (c : QueueEntry) (rest : List QueueEntry)
    (hfm : firstMax u rest = none) : firstMax u (c :: rest) = some c := by
  rw [firstMax_cons, hfm]

theorem firstMax_cons_some (u : QueueEntry) (c d : QueueEntry) (rest : List QueueEntry)
    (hfm : firstMax u rest = some d) :
    firstMax u (c :: rest) = if score u c < score u d then some d else some c := by
  rw [firstMax_cons, hfm]

theorem firstMax_nil_iff (u : QueueEntry) (l : List QueueEntry) :
    firstMax u l = none ↔ l = [] := by
  cases l with
  | nil => simp [firstMax]
  | cons c rest =>
    constructor
    · intro h
      cases hfm : firstMax u rest with
      | none =>
        rw [firstMax_cons_none u c rest hfm] at h
        exact absurd h (by simp)
      | some d =>
        rw [firstMax_cons_some u c d rest hfm] at h
        by_cases hcd : score u c < score u d <;> simp [hcd] at h
    · intro h
      exact absurd h (List.cons_ne_nil c rest)

theorem bestLoop_eq_firstMax (u : QueueEntry) (l : List QueueEntry)
    (b : Option String) (bs : Int) :
    bestLoop u l b bs = resolveBest u b bs (firstMax u l) := by
  induction l generalizing b bs with
  | nil => rfl
  | cons c rest ih =>
    show (if bs < (score u c : Int) then
        bestLoop u rest (some c.user_id) (score u c)
      else bestLoop u rest b bs) = resolveBest u b bs (firstMax u (c :: rest))
    cases hfm : firstMax u rest with
    | none =>
      rw [firstMax_cons_none u c rest hfm]
      have hrest : rest = [] := (firstMax_nil_iff u rest).mp hfm
      subst hrest
      by_cases h3 : bs < (score u c : Int)
      · rw [if_pos h3]
        show some c.user_id = if bs < (score u c : Int) then some c.user_id else b
        rw [if_pos h3]
      · rw [if_neg h3]
        show b = if bs < (score u c : Int) then some c.user_id else b
        rw [if_neg h3]
    | some d =>
      rw [firstMax_cons_some u c d rest hfm]
      by_cases hcd : score u c < score u d
      · rw [if_pos hcd]
        show _ = if bs < (score u d : Int) then some d.user_id else b
        by_cases h3 : bs < (score u c : Int)
        · rw [if_pos h3, ih (some c.user_id) (score u c), hfm]
          show (if (score u c : Int) < (score u d : Int) then some d.user_id
            else some c.user_id) = _
          rw [if_pos (by exact_mod_cast hcd), if_pos (by omega)]
        · rw [if_neg h3, ih b bs, hfm]
          rfl
      · rw [if_neg hcd]
        show _ = if bs < (score u c : Int) then some c.user_id else b
        by_cases h3 : bs < (score u c : Int)
        · rw [if_pos h3, ih (some c.user_id) (score u c), hfm]
          show (if (score u c : Int) < (score u d : Int) then some d.user_id
            else some c.user_id) = _
          rw [if_neg (by exact_mod_cast hcd), if_pos h3]
        · rw [if_neg h3, ih b bs, hfm]
          show (if bs < (score u d : Int) then some d.user_id else b)
            = if bs < (score u c : Int) then some c.user_id else b
          rw [if_neg (by omega), if_neg h3]

theorem firstMax_mem (u : QueueEntry) (l : List QueueEntry) (d : QueueEntry)
    (h : firstMax u l = some d) : d ∈ l := by
  induction l with
  | nil => simp [firstMax] at h
  | cons c rest ih =>
    cases hfm : firstMax u rest with
    | none =>
      rw [firstMax_cons_none u c rest hfm] at h
      simp only [Option.some.injEq] at h
      subst h
      exact List.mem_cons_self c rest
    | some e =>
      rw [firstMax_cons_some u c e rest hfm] at h
      by_cases hcd : score u c < score u e
      · rw [if_pos hcd] at h
        simp only [Option.some.injEq] at h
        subst h
        exact List.mem_cons_of_mem c (ih hfm)
      · rw [if_neg hcd] at h
        simp only [Option.some.injEq] at h
        subst h
        exact List.mem_cons_self c rest

theorem firstMax_le (u : QueueEntry) (l : List QueueEntry) (d : QueueEntry)
    (h : firstMax u l = some d) : ∀ c ∈ l, score u c ≤ score u d := by
  induction l generalizing d with
  | nil => simp [firstMax] at h
  | cons c rest ih =>
    intro x hx
    cases hfm : firstMax u rest with
    | none =>
      rw [firstMax_cons_none u c rest hfm] at h
      simp only [Option.some.injEq] at h
      have hrest : rest = [] := (firstMax_nil_iff u rest).mp hfm
      subst hrest
      simp only [List.mem_singleton] at hx
      rw [hx, h]
    | some e =>
      rw [firstMax_cons_some u c e rest hfm] at h
      rcases List.mem_cons.mp hx with hx | hx
      · by_cases hcd : score u c < score u e
        · rw [if_pos hcd] at h
          simp only [Option.some.injEq] at h
          subst h
          rw [hx]
          omega
        · rw [if_neg hcd] at h
          simp only [Option.some.injEq] at h
          subst h
          rw [hx]
      · have hxe : score u x ≤ score u e := ih e hfm x hx
        by_cases hcd : score u c < score u e
        · rw [if_pos hcd] at h
          simp only [Option.some.injEq] at h
          subst h
          exact hxe
        · rw [if_neg hcd] at h
          simp only [Option.some.injEq] at h
          subst h
          omega

theorem firstMax_first (u : QueueEntry) (l : List QueueEntry) (d : QueueEntry)
    (h : firstMax u l = some d) :
    ∃ l₁ l₂, l = l₁ ++ d :: l₂ ∧ ∀ c ∈ l₁, score u c < score u d := by
  induction l with
  | nil => simp [firstMax] at h
  | cons c rest ih =>
    cases hfm : firstMax u rest with
    | none =>
      rw [firstMax_cons_none u c rest hfm] at h
      simp only [Option.some.injEq] at h
      subst h
      exact ⟨[], rest, rfl, by simp⟩
    | some e =>
      rw [firstMax_cons_some u c e rest hfm] at h
      by_cases hcd : score u c < score u e
      · rw [if_pos hcd] at h
        simp only [Option.some.injEq] at h
        subst h
        obtain ⟨l₁, l₂, hsplit, hlt⟩ := ih hfm
        refine ⟨c :: l₁, l₂, by rw [hsplit]; rfl, ?_⟩
        intro x hx
        rcases List.mem_cons.mp hx with hx | hx
        · rw [hx]
          exact hcd
        · exact hlt x hx
      · rw [if_neg hcd] at h
        simp only [Option.some.injEq] at h
        subst h
        exact ⟨[], rest, rfl, by simp⟩


theorem find?_user_id (q : List QueueEntry) (uid : String) (u : QueueEntry)
    (hu : q.find? (fun e => e.user_id == uid) = some u) : u.user_id = uid := by
  have := List.find?_some hu
  simpa using this

theorem find_match_eq (q : List QueueEntry) (uid : String) (u : QueueEntry)
    (hu : q.find? (fun e => e.user_id == uid) = some u) :
    find_match q uid = (firstMax u (candFilter u q)).map (fun d => d.user_id) := by
  unfold find_match
  rw [hu]
  show find_match_aux u q none (-1) = _
  rw [find_match_aux_eq_bestLoop, bestLoop_eq_firstMax]
  cases hfm : firstMax u (candFilter u q) with
  | none => rfl
  | some d =>
    show (if (-1 : Int) < (score u d : Int) then some d.user_id else none) = some d.user_id
    rw [if_pos (by omega)]

theorem candFilter_sub (u : QueueEntry) (q : List QueueEntry) (c : QueueEntry)
    (h : c ∈ candFilter u q) :
    c ∈ q ∧ ¬ c.user_id = u.user_id ∧ passesGenderFilter u c = true := by
  have hmem := List.mem_of_mem_filter h
  have hprop := List.of_mem_filter h
  simp only [Bool.and_eq_true, Bool.not_eq_true', beq_eq_false_iff_ne, ne_eq] at hprop
  exact ⟨hmem, hprop.1, hprop.2⟩

theorem mem_candFilter (u : QueueEntry) (q : List QueueEntry) (c : QueueEntry)
    (hmem : c ∈ q) (hne : ¬ c.user_id = u.user_id)
    (hpass : passesGenderFilter u c = true) : c ∈ candFilter u q := by
  refine List.mem_filter.mpr ⟨hmem, ?_⟩
  simp [hne, hpass]

theorem candFilter_cons_eq (u x : QueueEntry) (l : List QueueEntry) :
    candFilter u (x :: l) =
      if !(x.user_id == u.user_id) && passesGenderFilter u x
      then x :: candFilter u l else candFilter u l := by
  simp only [candFilter, List.filter_cons]

theorem firstMax_congr (u u' : QueueEntry) (hsc : ∀ c, score u c = score u' c)
    (l : List QueueEntry) : firstMax u l = firstMax u' l := by
  induction l with
  | nil => rfl
  | cons c rest ih =>
    cases hfm : firstMax u' rest with
    | none =>
      rw [firstMax_cons_none u c rest (ih.trans hfm), firstMax_cons_none u' c rest hfm]
    | some d =>
      rw [firstMax_cons_some u c d rest (ih.trans hfm),
        firstMax_cons_some u' c d rest hfm, hsc c, hsc d]

/-- Overwrite the `gender_preference` field of the entry stored under `uid`
(the whole-queue effect of re-enqueueing the same participant with a
different preference). -/
def setGenderPref (q : List QueueEntry) (uid : String) (gp : Option String) :
    List QueueEntry :=
  q.map (fun e => if e.user_id == uid then { e with gender_preference := gp } else e)

theorem score_setGenderPref (u c : QueueEntry) (gp : Option String) :
    score { u with gender_preference := gp } c = score u c := rfl

theorem passes_setGenderPref (u c : QueueEntry) (hprem : u.is_premium = false)
    (gp : Option String) :
    passesGenderFilter { u with gender_preference := gp } c = passesGenderFilter u c := by
  simp [passesGenderFilter, hprem]

theorem candFilter_setGenderPref (u : QueueEntry) (hprem : u.is_premium = false)
    (gp : Option String) (q : List QueueEntry) :
    candFilter { u with gender_preference := gp } (setGenderPref q u.user_id gp)
      = candFilter u q := by
  induction q with
  | nil => rfl
  | cons c q' ih =>
    have hstep : setGenderPref (c :: q') u.user_id gp =
        (if c.user_id == u.user_id then { c with gender_preference := gp } else c)
          :: setGenderPref q' u.user_id gp := rfl
    rw [hstep]
    by_cases hc : (c.user_id == u.user_id) = true
    · rw [if_pos hc, candFilter_cons_eq, candFilter_cons_eq]
      rw [if_neg (by simp_all), if_neg (by simp_all)]
      exact ih
    · rw [if_neg hc, candFilter_cons_eq, candFilter_cons_eq]
      have hpass := passes_setGenderPref u c hprem gp
      by_cases hfull : (!(c.user_id == u.user_id) && passesGenderFilter u c) = true
      · rw [if_pos (by simp_all), if_pos hfull, ih]
      · rw [if_neg (by simp_all), if_neg hfull, ih]

theorem find?_setGenderPref (q : List QueueEntry) (u : QueueEntry)
    (gp : Option String)
    (hu : q.find? (fun e => e.user_id == u.user_id) = some u) :
    (setGenderPref q u.user_id gp).find? (fun e => e.user_id == u.user_id)
      = some { u with gender_preference := gp } := by
  unfold setGenderPref
  rw [List.find?_map]
  have hpred : (fun e : QueueEntry => e.user_id == u.user_id) ∘
      (fun e : QueueEntry =>
        if e.user_id == u.user_id then { e with gender_preference := gp } else e)
      = fun e : QueueEntry => e.user_id == u.user_id := by
    funext e
    by_cases he : (e.user_id == u.user_id) = true
    · simp only [Function.comp_apply, if_pos he]
    · simp only [Function.comp_apply, if_neg he]
  rw [hpred, hu]
  simp only [Option.map_some']
  rw [if_pos (by simp)]

theorem passes_first_clause (u c : QueueEntry) (hpass : passesGenderFilter u c = true)
    (hprem : u.is_premium = true) (p : String) (hgp : u.gender_preference = some p)
    (hp : ¬ p = "") : c.gender = some p := by
  cases hgend : c.gender == u.gender_preference with
  | true =>
    have h := eq_of_beq hgend
    rw [hgp] at h
    exact h
  | false =>
    exfalso
    have hfalse : passesGenderFilter u c = false := by
      unfold passesGenderFilter
      rw [hprem, hgend, hgp]
      simp [truthyOpt, hp]
    rw [hpass] at hfalse
    exact Bool.noConfusion hfalse

theorem passes_second_clause (u c : QueueEntry) (hpass : passesGenderFilter u c = true)
    (hprem : c.is_premium = true) (p : String) (hgp : c.gender_preference = some p)
    (hp : ¬ p = "") : u.gender = some p := by
  cases hgend : u.gender == c.gender_preference with
  | true =>
    have h := eq_of_beq hgend
    rw [hgp] at h
    exact h
  | false =>
    exfalso
    have hfalse : passesGenderFilter u c = false := by
      unfold passesGenderFilter
      rw [hprem, hgend, hgp]
      simp [truthyOpt, hp]
    rw [hpass] at hfalse
    exact Bool.noConfusion hfalse

/-! ## Queue-invariant machinery -/

/-- A queue mutation from any caller: enqueue or dequeue. -/
inductive QOp where
  | enq (e : QueueEntry)
  | deq (uid : String)
deriving Repr, DecidableEq

/-- Apply one serialized queue mutation. -/
def applyQOp (q : List QueueEntry) : QOp → List QueueEntry
  | .enq e => add_to_queue q e
  | .deq uid => remove_from_queue q uid

/-- Run a sequence of queue mutations from the empty queue. -/
def runQOps (ops : List QOp) : List QueueEntry := ops.foldl applyQOp []

theorem add_to_queue_keys (q : List QueueEntry) (e : QueueEntry) :
    (add_to_queue q e).map QueueEntry.user_id =
      if q.any (fun x => x.user_id == e.user_id) then q.map QueueEntry.user_id
      else q.map QueueEntry.user_id ++ [e.user_id] := by
  unfold add_to_queue
  by_cases h : q.any (fun x => x.user_id == e.user_id) = true
  · rw [if_pos h, if_pos h, List.map_map]
    apply List.map_congr_left
    intro x _
    by_cases hx : (x.user_id == e.user_id) = true
    · simp only [Function.comp_apply, if_pos hx]
      simp_all
    · simp only [Function.comp_apply, if_neg hx]
  · rw [if_neg h, if_neg h, List.map_append, List.map_cons, List.map_nil]

theorem add_to_queue_nodup (q : List QueueEntry) (e : QueueEntry)
    (h : (q.map QueueEntry.user_id).Nodup) :
    ((add_to_queue q e).map QueueEntry.user_id).Nodup := by
  rw [add_to_queue_keys]
  by_cases hc : q.any (fun x => x.user_id == e.user_id) = true
  · rw [if_pos hc]
    exact h
  · rw [if_neg hc]
    have hnot : e.user_id ∉ q.map QueueEntry.user_id := by
      intro hmem
      obtain ⟨x, hx, hxe⟩ := List.mem_map.mp hmem
      exact hc (List.any_eq_true.mpr ⟨x, hx, by simp [hxe]⟩)
    simp [List.nodup_append, h, hnot]

theorem remove_from_queue_nodup (q : List QueueEntry) (uid : String)
    (h : (q.map QueueEntry.user_id).Nodup) :
    ((remove_from_queue q uid).map QueueEntry.user_id).Nodup := by
  exact h.sublist ((List.filter_sublist q).map QueueEntry.user_id)

theorem runQOps_nodup (ops : List QOp) :
    ((runQOps ops).map QueueEntry.user_id).Nodup := by
  suffices h : ∀ q, (q.map QueueEntry.user_id).Nodup →
      ((ops.foldl applyQOp q).map QueueEntry.user_id).Nodup by
    exact h [] (by simp)
  induction ops with
  | nil => intro q h; exact h
  | cons op rest ih =>
    intro q h
    apply ih
    cases op with
    | enq e => exact add_to_queue_nodup q e h
    | deq uid => exact remove_from_queue_nodup q uid h

theorem add_to_queue_lookup (q : List QueueEntry) (e : QueueEntry) :
    (add_to_queue q e).find? (fun x => x.user_id == e.user_id) = some e := by
  unfold add_to_queue
  by_cases h : q.any (fun x => x.user_id == e.user_id) = true
  · rw [if_pos h]
    induction q with
    | nil => simp at h
    | cons c rest ih =>
      rw [List.map_cons]
      by_cases hc : (c.user_id == e.user_id) = true
      · rw [if_pos hc]
        exact List.find?_cons_of_pos _ (by simp)
      · rw [if_neg hc]
        have hred : List.find? (fun x => x.user_id == e.user_id)
            (c :: List.map (fun x => if (x.user_id == e.user_id) = true then e else x) rest)
            = List.find? (fun x => x.user_id == e.user_id)
              (List.map (fun x => if (x.user_id == e.user_id) = true then e else x) rest) :=
          List.find?_cons_of_neg _ hc
        rw [hred]
        apply ih
        simp only [List.any_cons, hc, Bool.false_or] at h
        exact h
  · rw [if_neg h]
    have hnone : q.find? (fun x => x.user_id == e.user_id) = none := by
      rw [List.find?_eq_none]
      intro x hx hpx
      exact h (List.any_eq_true.mpr ⟨x, hx, hpx⟩)
    rw [List.find?_append, hnone]
    simp

theorem find_match_ne_self (q : List QueueEntry) (uid : String) :
    ¬ find_match q uid = some uid := by
  intro h
  unfold find_match at h
  cases hu : q.find? (fun e => e.user_id == uid) with
  | none =>
    rw [hu] at h
    exact absurd h (by simp)
  | some u =>
    rw [hu] at h
    have h : find_match_aux u q none (-1) = some uid := h
    rw [find_match_aux_eq_bestLoop, bestLoop_eq_firstMax] at h
    cases hfm : firstMax u (candFilter u q) with
    | none =>
      rw [hfm] at h
      exact absurd h (by simp [resolveBest])
    | some d =>
      rw [hfm] at h
      have huid := find?_user_id q uid u hu
      have hd := candFilter_sub u q d (firstMax_mem u _ d hfm)
      simp only [resolveBest] at h
      rw [if_pos (by omega)] at h
      simp only [Option.some.injEq] at h
      exact hd.2.1 (by rw [h, huid])

/-! ## Claim theorems: matchmaking -/

/-- C1: for a querying participant present in the queue, every non-excluded
candidate's score is 10 times the size of the interest-set intersection, plus
5 on equal video/text preference, plus 3 when the candidate is premium or on
trial; `find_match` returns the first candidate attaining the maximal score
(ties keep enumeration order), and returns a candidate whenever any
non-excluded candidate exists — even one scoring 0. -/
theorem C1_find_match_best_score (q : List QueueEntry) (u : QueueEntry)
    (hu : q.find? (fun e => e.user_id == u.user_id) = some u) :
    (∀ c ∈ candFilter u q, score u c =
        10 * (u.interests.toFinset ∩ c.interests.toFinset).card
          + (if u.prefer_video = c.prefer_video then 5 else 0)
          + (if c.is_premium = true ∨ c.is_trial = true then 3 else 0)) ∧
    (find_match q u.user_id = none ↔ candFilter u q = []) ∧
    (∀ m, find_match q u.user_id = some m →
      ∃ l₁ c l₂, candFilter u q = l₁ ++ c :: l₂ ∧ c.user_id = m ∧
        (∀ d ∈ candFilter u q, score u d ≤ score u c) ∧
        (∀ d ∈ l₁, score u d < score u c)) := by
  refine ⟨?_, ?_, ?_⟩
  · intro c _
    simp only [score, beq_iff_eq, Bool.or_eq_true]
  · rw [find_match_eq q u.user_id u hu]
    constructor
    · intro h
      cases hfm : firstMax u (candFilter u q) with
      | none => exact (firstMax_nil_iff u _).mp hfm
      | some d =>
        rw [hfm] at h
        simp at h
    · intro h
      rw [(firstMax_nil_iff u _).mpr h]
      rfl
  · intro m hm
    rw [find_match_eq q u.user_id u hu] at hm
    cases hfm : firstMax u (candFilter u q) with
    | none =>
      rw [hfm] at hm
      simp at hm
    | some c =>
      rw [hfm] at hm
      simp only [Option.map_some', Option.some.injEq] at hm
      obtain ⟨l₁, l₂, hsplit, hlt⟩ := firstMax_first u _ c hfm
      exact ⟨l₁, c, l₂, hsplit, hm, firstMax_le u _ c hfm, hlt⟩

/-- Closed witness for C1 at a concrete queue of two entries. -/
theorem C1_find_match_best_score_witness :
    ([(⟨"a", ["g"], false, false, false, none, none⟩ : QueueEntry),
      ⟨"b", [], true, false, false, none, none⟩].find?
        (fun e => e.user_id == "a")
      = some ⟨"a", ["g"], false, false, false, none, none⟩) ∧
    (find_match [(⟨"a", ["g"], false, false, false, none, none⟩ : QueueEntry),
        ⟨"b", [], true, false, false, none, none⟩] "a" = none ↔
      candFilter ⟨"a", ["g"], false, false, false, none, none⟩
        [(⟨"a", ["g"], false, false, false, none, none⟩ : QueueEntry),
          ⟨"b", [], true, false, false, none, none⟩] = []) := by
  refine ⟨by decide, ?_⟩
  exact (C1_find_match_best_score
    [⟨"a", ["g"], false, false, false, none, none⟩,
      ⟨"b", [], true, false, false, none, none⟩]
    ⟨"a", ["g"], false, false, false, none, none⟩ (by decide)).2.1

/-- C2: a premium querying entry with a (truthy) gender preference is only
ever matched to a candidate of exactly that gender; a premium candidate with
its own preference is only returned when the querier's gender matches it; and
a non-premium querying entry's `gender_preference` value has no effect on the
result of `find_match`. -/
theorem C2_gender_filter_enforced (q : List QueueEntry) (u : QueueEntry)
    (hu : q.find? (fun e => e.user_id == u.user_id) = some u) :
    (∀ m, find_match q u.user_id = some m →
      (∀ p, u.is_premium = true → u.gender_preference = some p → ¬ p = "" →
        ∃ c ∈ q, c.user_id = m ∧ c.gender = some p) ∧
      (∃ c ∈ q, c.user_id = m ∧
        ∀ p, c.is_premium = true → c.gender_preference = some p → ¬ p = "" →
          u.gender = some p)) ∧
    (u.is_premium = false → ∀ gp,
      find_match (setGenderPref q u.user_id gp) u.user_id = find_match q u.user_id) := by
  constructor
  · intro m hm
    rw [find_match_eq q u.user_id u hu] at hm
    cases hfm : firstMax u (candFilter u q) with
    | none =>
      rw [hfm] at hm
      exact absurd hm (by simp)
    | some c =>
      rw [hfm] at hm
      simp only [Option.map_some', Option.some.injEq] at hm
      have hc := candFilter_sub u q c (firstMax_mem u _ c hfm)
      constructor
      · intro p hprem hgp hp
        exact ⟨c, hc.1, hm, passes_first_clause u c hc.2.2 hprem p hgp hp⟩
      · exact ⟨c, hc.1, hm, fun p hcprem hcgp hp =>
          passes_second_clause u c hc.2.2 hcprem p hcgp hp⟩
  · intro hprem gp
    rw [find_match_eq q u.user_id u hu]
    have hu' := find?_setGenderPref q u gp hu
    have huid : ({ u with gender_preference := gp } : QueueEntry).user_id = u.user_id := rfl
    rw [show u.user_id = ({ u with gender_preference := gp } : QueueEntry).user_id from rfl]
    rw [find_match_eq (setGenderPref q u.user_id gp)
      ({ u with gender_preference := gp } : QueueEntry).user_id
      { u with gender_preference := gp } hu']
    rw [candFilter_setGenderPref u hprem gp q]
    rw [firstMax_congr { u with gender_preference := gp } u
      (fun c => score_setGenderPref u c gp) (candFilter u q)]

/-- Closed witness for C2: a premium querier preferring "female" is matched
to the female candidate, never the male one. -/
theorem C2_gender_filter_enforced_witness :
    ([(⟨"a", [], false, true, false, some "male", some "female"⟩ : QueueEntry),
      ⟨"b", [], false, false, false, some "male", none⟩,
      ⟨"c", [], false, false, false, some "female", none⟩].find?
        (fun e => e.user_id == "a")
      = some ⟨"a", [], false, true, false, some "male", some "female"⟩) ∧
    (∃ c ∈ [(⟨"a", [], false, true, false, some "male", some "female"⟩ : QueueEntry),
        ⟨"b", [], false, false, false, some "male", none⟩,
        ⟨"c", [], false, false, false, some "female", none⟩],
      c.user_id = "c" ∧ c.gender = some "female") := by
  refine ⟨by decide, ?_⟩
  have h := (C2_gender_filter_enforced
    [⟨"a", [], false, true, false, some "male", some "female"⟩,
      ⟨"b", [], false, false, false, some "male", none⟩,
      ⟨"c", [], false, false, false, some "female", none⟩]
    ⟨"a", [], false, true, false, some "male", some "female"⟩ (by decide)).1
    "c" (by decide)
  exact h.1 "female" rfl rfl (by decide)

/-- C9: after any sequence of enqueue/dequeue operations the queue holds at
most one entry per participant identity, a later enqueue replaces the stored
entry for that identity, and `find_match` never returns the caller's own
identity. -/
theorem C9_queue_invariants :
    (∀ ops : List QOp, ((runQOps ops).map QueueEntry.user_id).Nodup) ∧
    (∀ (q : List QueueEntry) (e : QueueEntry),
      (add_to_queue q e).find? (fun x => x.user_id == e.user_id) = some e) ∧
    (∀ (q : List QueueEntry) (uid : String), ¬ find_match q uid = some uid) :=
  ⟨runQOps_nodup, add_to_queue_lookup, find_match_ne_self⟩

/-! ## Claim theorems: rate limiter -/

theorem check_rate_limit_eq (st : RateState) (now : ℚ) (limit : ℕ) (window : ℚ) :
    check_rate_limit st now limit window =
      if limit ≤ (st.requests.filter (fun t => now - window < t)).length then
        (if 5 ≤ st.abuse_score + 1
          then ⟨st.requests.filter (fun t => now - window < t),
            st.abuse_score + 1, some (now + 600)⟩
          else ⟨st.requests.filter (fun t => now - window < t),
            st.abuse_score + 1, st.blocked_until⟩, false)
      else (⟨st.requests.filter (fun t => now - window < t) ++ [now],
        st.abuse_score, st.blocked_until⟩, true) := rfl

theorem check_rate_limit_mk (rs : List ℚ) (sc : ℚ) (bl : Option ℚ)
    (now : ℚ) (limit : ℕ) (window : ℚ) :
    check_rate_limit ⟨rs, sc, bl⟩ now limit window =
      if limit ≤ (rs.filter (fun t => now - window < t)).length then
        (if 5 ≤ sc + 1
          then ⟨rs.filter (fun t => now - window < t), sc + 1, some (now + 600)⟩
          else ⟨rs.filter (fun t => now - window < t), sc + 1, bl⟩, false)
      else (⟨rs.filter (fun t => now - window < t) ++ [now], sc, bl⟩, true) := rfl

/-- C5: `check_rate_limit` prunes every timestamp older than `now - window`;
when at least `limit` timestamps survive it denies, bumping the abuse score by
1 and setting a 600-second block exactly when the bumped score reaches 5;
otherwise it records `now` and admits.  Starting from score 0 in a saturated
window, the block appears exactly at the 5th consecutive violation. -/
theorem C5_check_rate_limit (st : RateState) (now : ℚ) (limit : ℕ) (window : ℚ)
    (reqs : List ℚ) (hreqs : reqs = st.requests.filter (fun t => now - window < t)) :
    (∀ t ∈ st.requests, t < now - window → t ∉ reqs) ∧
    (limit ≤ reqs.length →
      check_rate_limit st now limit window =
        (⟨reqs, st.abuse_score + 1,
          if 5 ≤ st.abuse_score + 1 then some (now + 600) else st.blocked_until⟩, false)) ∧
    (reqs.length < limit →
      check_rate_limit st now limit window =
        (⟨reqs ++ [now], st.abuse_score, st.blocked_until⟩, true)) ∧
    (st.abuse_score = 0 → st.blocked_until = none → limit ≤ reqs.length →
      ∀ k : ℕ,
        ((fun s => (check_rate_limit s now limit window).1)^[k] st).blocked_until
          = if 5 ≤ k then some (now + 600) else none) := by
  have hfix : reqs.filter (fun t => now - window < t) = reqs := by
    rw [hreqs, List.filter_filter]
    simp
  refine ⟨?_, ?_, ?_, ?_⟩
  · intro t _ hlt hmem
    rw [hreqs] at hmem
    have := List.of_mem_filter hmem
    simp only [decide_eq_true_eq] at this
    linarith
  · intro hlim
    rw [check_rate_limit_eq, ← hreqs, if_pos hlim]
    by_cases h5 : 5 ≤ st.abuse_score + 1
    · rw [if_pos h5, if_pos h5]
    · rw [if_neg h5, if_neg h5]
  · intro hlt
    rw [check_rate_limit_eq, ← hreqs, if_neg (by omega)]
  · intro hs0 hb0 hlim k
    have main : ∀ k : ℕ, (fun s => (check_rate_limit s now limit window).1)^[k] st
        = if k = 0 then st
          else ⟨reqs, (k : ℚ), if 5 ≤ k then some (now + 600) else none⟩ := by
      intro k
      induction k with
      | zero => simp
      | succ k ihk =>
        rw [Function.iterate_succ_apply', ihk]
        by_cases hk0 : k = 0
        · subst hk0
          rw [if_pos rfl, if_neg (by omega)]
          show (check_rate_limit st now limit window).1 = _
          rw [check_rate_limit_eq, ← hreqs, if_pos hlim, hs0, hb0,
            if_neg (by norm_num)]
          show (⟨reqs, 0 + 1, none⟩ : RateState) = ⟨reqs, ((1 : ℕ) : ℚ), none⟩
          norm_num
        · rw [if_neg hk0, if_neg (show ¬ (k + 1 = 0) by omega)]
          show (check_rate_limit ⟨reqs, (k : ℚ),
            if 5 ≤ k then some (now + 600) else none⟩ now limit window).1 = _
          rw [check_rate_limit_mk, hfix, if_pos hlim]
          by_cases h5 : 5 ≤ k + 1
          · rw [if_pos (show (5 : ℚ) ≤ (k : ℚ) + 1 by exact_mod_cast h5),
              if_pos h5]
            show (⟨reqs, (k : ℚ) + 1, some (now + 600)⟩ : RateState) = _
            have : ((k : ℚ)) + 1 = ((k + 1 : ℕ) : ℚ) := by push_cast; ring
            rw [this]
          · rw [if_neg (show ¬ (5 : ℚ) ≤ (k : ℚ) + 1 by
                intro hq
                exact h5 (by exact_mod_cast hq)),
              if_neg h5, if_neg (by omega)]
            show (⟨reqs, (k : ℚ) + 1, none⟩ : RateState) = _
            have : ((k : ℚ)) + 1 = ((k + 1 : ℕ) : ℚ) := by push_cast; ring
            rw [this]
    rw [main k]
    by_cases hk0 : k = 0
    · subst hk0
      rw [if_pos rfl, hb0, if_neg (by omega)]
    · rw [if_neg hk0]

/-- Closed witness for C5: two fresh timestamps against limit 2 deny and bump
the score; five consecutive violations from score 0 set the 600-second
block, four do not. -/
theorem C5_check_rate_limit_witness :
    check_rate_limit ⟨[100, 100], 0, none⟩ 100 2 60 = (⟨[100, 100], 1, none⟩, false) ∧
    ((fun s => (check_rate_limit s 100 2 60).1)^[5]
        (⟨[100, 100], 0, none⟩ : RateState)).blocked_until = some 700 ∧
    ((fun s => (check_rate_limit s 100 2 60).1)^[4]
        (⟨[100, 100], 0, none⟩ : RateState)).blocked_until = none := by
  have hfilt : ([100, 100] : List ℚ)
      = ([100, 100] : List ℚ).filter (fun t => (100 : ℚ) - 60 < t) := by
    have h1 : (100 : ℚ) - 60 < 100 := by norm_num
    simp [List.filter_cons, h1]
  have h := C5_check_rate_limit ⟨[100, 100], 0, none⟩ 100 2 60 [100, 100] hfilt
  refine ⟨?_, ?_, ?_⟩
  · have h2 := h.2.1 (by decide)
    rw [h2]
    norm_num
  · have h5 := h.2.2.2 rfl rfl (by decide) 5
    rw [h5, if_pos (by omega)]
    norm_num
  · have h4 := h.2.2.2 rfl rfl (by decide) 4
    rw [h4, if_neg (by omega)]

/-- C6: `record_suspicious_activity` adds `severity` to the abuse score and
resets it to 0 (with a 3600-second block) exactly when the sum reaches 10;
below the threshold the score only grows, and neither `check_rate_limit`,
`is_blocked` nor `block_client` ever lowers it. -/
theorem C6_record_suspicious (st : RateState) (now severity : ℚ)
    (hsev : 0 ≤ severity) :
    ((record_suspicious_activity st now severity).abuse_score
        = if 10 ≤ st.abuse_score + severity then 0 else st.abuse_score + severity) ∧
    (10 ≤ st.abuse_score + severity →
      (record_suspicious_activity st now severity).blocked_until = some (now + 3600)) ∧
    (¬ 10 ≤ st.abuse_score + severity →
      st.abuse_score ≤ (record_suspicious_activity st now severity).abuse_score ∧
      (record_suspicious_activity st now severity).blocked_until = st.blocked_until) ∧
    (∀ now' : ℚ, ∀ limit : ℕ, ∀ window : ℚ,
      st.abuse_score ≤ ((check_rate_limit st now' limit window).1).abuse_score) ∧
    (∀ now' : ℚ, ((is_blocked st now').1).abuse_score = st.abuse_score) ∧
    (∀ now' d : ℚ, (block_client st now' d).abuse_score = st.abuse_score) := by
  refine ⟨?_, ?_, ?_, ?_, ?_, ?_⟩
  · unfold record_suspicious_activity
    by_cases h10 : 10 ≤ st.abuse_score + severity
    · rw [if_pos h10, if_pos h10]
    · rw [if_neg h10, if_neg h10]
  · intro h10
    unfold record_suspicious_activity
    rw [if_pos h10]
    rfl
  · intro h10
    unfold record_suspicious_activity
    rw [if_neg h10]
    exact ⟨by simp [hsev], rfl⟩
  · intro now' limit window
    rw [check_rate_limit_eq]
    by_cases hl : limit ≤ (st.requests.filter (fun t => now' - window < t)).length
    · rw [if_pos hl]
      by_cases h5 : 5 ≤ st.abuse_score + 1
      · rw [if_pos h5]
        show st.abuse_score ≤ st.abuse_score + 1
        linarith
      · rw [if_neg h5]
        show st.abuse_score ≤ st.abuse_score + 1
        linarith
    · rw [if_neg hl]
  · intro now'
    unfold is_blocked
    cases hbl : st.blocked_until with
    | none => rfl
    | some e =>
      show (if now' < e then (st, true)
        else ({ st with blocked_until := none }, false)).1.abuse_score = st.abuse_score
      by_cases he : now' < e
      · rw [if_pos he]
      · rw [if_neg he]
  · intro now' d
    rfl

/-- Closed witness for C6 at severity 2 on a score of 9: the threshold is
crossed, the score resets and the hour-long block is set. -/
theorem C6_record_suspicious_witness :
    (record_suspicious_activity ⟨[], 9, none⟩ 50 2).abuse_score = 0 ∧
    (record_suspicious_activity ⟨[], 9, none⟩ 50 2).blocked_until = some 3650 := by
  have h := C6_record_suspicious ⟨[], 9, none⟩ 50 2 (by norm_num)
  constructor
  · rw [h.1, if_pos (by norm_num)]
  · have := h.2.1 (by norm_num)
    rw [this]
    norm_num

/-! ## Claim theorems: registry and relay -/

theorem find?_filter_ne (r : List (String × ℕ)) (uid v : String) (hv : ¬ v = uid) :
    (r.filter (fun p => !(p.1 == uid))).find? (fun p => p.1 == v)
      = r.find? (fun p => p.1 == v) := by
  induction r with
  | nil => rfl
  | cons x rest ih =>
    by_cases hx : (x.1 == uid) = true
    · rw [List.filter_cons, if_neg (by simp [hx])]
      have hxv : ¬ ((x.1 == v) = true) := by
        intro hxv
        exact hv ((eq_of_beq hxv).symm.trans (eq_of_beq hx))
      have hred : List.find? (fun p => p.1 == v) (x :: rest)
          = List.find? (fun p => p.1 == v) rest := List.find?_cons_of_neg _ hxv
      rw [hred, ih]
    · rw [List.filter_cons, if_pos (by simp [hx])]
      by_cases hxv : (x.1 == v) = true
      · have h1 : List.find? (fun p => p.1 == v)
            (x :: rest.filter (fun p => !(p.1 == uid))) = some x :=
          List.find?_cons_of_pos _ hxv
        have h2 : List.find? (fun p => p.1 == v) (x :: rest) = some x :=
          List.find?_cons_of_pos _ hxv
        rw [h1, h2]
      · have h1 : List.find? (fun p => p.1 == v)
            (x :: rest.filter (fun p => !(p.1 == uid)))
            = List.find? (fun p => p.1 == v) (rest.filter (fun p => !(p.1 == uid))) :=
          List.find?_cons_of_neg _ hxv
        have h2 : List.find? (fun p => p.1 == v) (x :: rest)
            = List.find? (fun p => p.1 == v) rest := List.find?_cons_of_neg _ hxv
        rw [h1, h2, ih]

/-- C3 counterexample: handle 0 for "alice" is superseded by handle 1; the
stale teardown for the old connection still deletes the entry, so the
superseding handle does not stay registered as the claim requires. -/
theorem C3_counterexample :
    lookup_connection
        (register_connection (register_connection [] "alice" 0) "alice" 1) "alice"
      = some 1 ∧
    teardown_unregister
        (register_connection (register_connection [] "alice" 0) "alice" 1) "alice"
      = [] ∧
    ¬ lookup_connection
        (teardown_unregister
          (register_connection (register_connection [] "alice" 0) "alice" 1) "alice")
        "alice" = some 1 := by
  decide

/-- C3 (amended): the teardown unregister deletes whatever handle is stored
under the identity — including one from a superseding registration — and
leaves every other identity's handle untouched. -/
theorem C3_teardown_unregister_unconditional (r : List (String × ℕ)) (uid : String) :
    lookup_connection (teardown_unregister r uid) uid = none ∧
    (∀ v, ¬ v = uid →
      lookup_connection (teardown_unregister r uid) v = lookup_connection r v) := by
  constructor
  · unfold teardown_unregister lookup_connection
    by_cases h : r.any (fun p => p.1 == uid) = true
    · rw [if_pos h]
      have hnone : (r.filter (fun p => !(p.1 == uid))).find? (fun p => p.1 == uid)
          = none := by
        rw [List.find?_eq_none]
        intro x hx hpx
        have hmem := List.of_mem_filter hx
        rw [hpx] at hmem
        exact Bool.noConfusion hmem
      rw [hnone]
      rfl
    · rw [if_neg h]
      have hnone : r.find? (fun p => p.1 == uid) = none := by
        rw [List.find?_eq_none]
        intro x hx hpx
        exact h (List.any_eq_true.mpr ⟨x, hx, hpx⟩)
      rw [hnone]
      rfl
  · intro v hv
    unfold teardown_unregister lookup_connection
    by_cases h : r.any (fun p => p.1 == uid) = true
    · rw [if_pos h, find?_filter_ne r uid v hv]
    · rw [if_neg h]

/-- Closed witness for C3's amended statement on a two-entry registry. -/
theorem C3_teardown_unregister_witness :
    lookup_connection (teardown_unregister [("alice", 0), ("bob", 7)] "alice") "alice"
        = none ∧
    lookup_connection (teardown_unregister [("alice", 0), ("bob", 7)] "alice") "bob"
        = lookup_connection [("alice", 0), ("bob", 7)] "bob" := by
  have h := C3_teardown_unregister_unconditional [("alice", 0), ("bob", 7)] "alice"
  exact ⟨h.1, h.2 "bob" (by decide)⟩

/-- C4 counterexample: a malformed frame makes the dispatch raise; the loop
exits through the outer error handler having consumed only that frame, so
the well-formed frame behind it is never processed — malformed input does
terminate the loop, contrary to the claim. -/
theorem C4_counterexample :
    (runLoop ⟨[], [], [], [], []⟩ "alice"
        [InMsg.malformed, InMsg.unknown "ping"]).exitKind = LoopExit.errored ∧
    (runLoop ⟨[], [], [], [], []⟩ "alice"
        [InMsg.malformed, InMsg.unknown "ping"]).consumed = 1 := by
  constructor <;> rfl

/-- C4 (amended): a malformed frame is logged by the outer error handler and
terminates the loop with no response, leaving later frames unprocessed,
while a well-formed frame of unrecognized type is skipped silently — no
response and no error log — and the loop continues with the remaining
frames. -/
theorem C4_loop_error_handling (st : ServerState) (uid t : String)
    (rest : List InMsg) :
    runLoop st uid (InMsg.malformed :: rest)
        = ⟨st, [], 1, LoopExit.errored, true⟩ ∧
    runLoop st uid (InMsg.unknown t :: rest)
        = ⟨(runLoop st uid rest).state, (runLoop st uid rest).sends,
           (runLoop st uid rest).consumed + 1, (runLoop st uid rest).exitKind,
           (runLoop st uid rest).errorLogged⟩ := by
  constructor
  · rfl
  · simp [runLoop, handle_message]

/-- C7 counterexample: the WebSocket `find_match` branch enqueues with
`is_premium` hardcoded to `False` and no profile lookup: for a caller whose
profile resolves to premium, the stored entry still carries
`is_premium = false` and `gender = none`. -/
theorem C7_counterexample :
    (handle_find_match ⟨[], [], [], [], []⟩ "alice" ["gaming"] false false "s1").1.queue
        = [⟨"alice", ["gaming"], false, false, false, none, none⟩] ∧
    (Profile.mk true (some "female")).is_premium = true ∧
    ¬ ((⟨"alice", ["gaming"], false, false, false, none, none⟩ : QueueEntry).is_premium
        = (Profile.mk true (some "female")).is_premium) := by
  refine ⟨by decide, rfl, by decide⟩

/-- C7 (amended): the entry the WebSocket `find_match` branch enqueues takes
interests, video preference and trial intent from the message and hardcodes
`is_premium = false`, `gender = none`, `gender_preference = none` for every
caller, consulting no profile; on a miss exactly that entry is what stays
stored under the caller's key. -/
theorem C7_ws_entry_hardcoded (st : ServerState) (uid : String)
    (interests : List String) (pv ut : Bool) (sid : String) :
    ws_queue_entry uid interests pv ut = ⟨uid, interests, pv, false, ut, none, none⟩ ∧
    (find_match (add_to_queue st.queue (ws_queue_entry uid interests pv ut)) uid = none →
      (handle_find_match st uid interests pv ut sid).1.queue.find?
          (fun e => e.user_id == uid)
        = some (ws_queue_entry uid interests pv ut)) := by
  refine ⟨rfl, ?_⟩
  intro hmiss
  simp only [handle_find_match, hmiss]
  exact add_to_queue_lookup st.queue (ws_queue_entry uid interests pv ut)

/-- Closed witness for C7's amended statement: an anonymous-style caller on
an empty queue misses and stays queued with the hardcoded entry. -/
theorem C7_ws_entry_hardcoded_witness :
    (handle_find_match ⟨[], [], [], [], []⟩ "alice" ["gaming"] true false "s1").1.queue.find?
        (fun e => e.user_id == "alice")
      = some (ws_queue_entry "alice" ["gaming"] true false) := by
  exact (C7_ws_entry_hardcoded ⟨[], [], [], [], []⟩ "alice" ["gaming"] true false
    "s1").2 (by decide)

/-- C8: with the named partner connected, a "block" verdict answers only the
sender with `message_blocked`, persisting and forwarding nothing; any other
verdict persists the message and forwards it to the partner with `is_warned`
true exactly when the verdict's action is "warn". -/
theorem C8_chat_message_moderation (st : ServerState) (uid : String)
    (sid : Option String) (content : String) (pid : String)
    (verdict : ModerationResult) (mid : String)
    (hp : ¬ pid = "")
    (hconn : st.connections.any (fun c => c.1 == pid) = true) :
    (verdict.action = "block" →
      handle_chat_message st uid sid content (some pid) verdict mid
        = (st, [(uid, OutMsg.messageBlocked "Content violates guidelines")])) ∧
    (¬ verdict.action = "block" →
      handle_chat_message st uid sid content (some pid) verdict mid
        = ({ st with chat_messages := st.chat_messages
              ++ [⟨mid, sid, uid, content, !verdict.is_safe, verdict.confidence⟩] },
           [(pid, OutMsg.chatMessage content uid (verdict.action == "warn"))])) := by
  constructor
  · intro hb
    unfold handle_chat_message
    rw [if_pos (by simp [hb])]
  · intro hb
    simp only [handle_chat_message]
    rw [if_neg (by simp [hb]), if_pos (by simp [truthyOpt, hp, hconn])]

/-- Closed witness for C8: a blocked message answers only the sender; a
warned message reaches the partner flagged. -/
theorem C8_chat_message_moderation_witness :
    handle_chat_message ⟨[], [("bob", 3)], [], [], []⟩ "alice" (some "s") "hi"
        (some "bob") ⟨true, 1, "block"⟩ "m1"
      = (⟨[], [("bob", 3)], [], [], []⟩,
         [("alice", OutMsg.messageBlocked "Content violates guidelines")]) ∧
    handle_chat_message ⟨[], [("bob", 3)], [], [], []⟩ "alice" (some "s") "hey"
        (some "bob") ⟨false, 1, "warn"⟩ "m2"
      = (⟨[], [("bob", 3)], [], [],
          [⟨"m2", some "s", "alice", "hey", true, 1⟩]⟩,
         [("bob", OutMsg.chatMessage "hey" "alice" true)]) := by
  constructor
  · exact (C8_chat_message_moderation ⟨[], [("bob", 3)], [], [], []⟩ "alice" (some "s")
      "hi" "bob" ⟨true, 1, "block"⟩ "m1" (by decide) (by decide)).1 rfl
  · have h := (C8_chat_message_moderation ⟨[], [("bob", 3)], [], [], []⟩ "alice"
      (some "s") "hey" "bob" ⟨false, 1, "warn"⟩ "m2" (by decide) (by decide)).2
      (by decide)
    rw [h]
    decide

theorem mark_session_ended_mem (docs : List SessionDoc) (sid : String) (d : SessionDoc)
    (hd : docs.find? (fun x => x.id == sid) = some d) :
    ({ d with status := "ended" }) ∈ mark_session_ended docs sid := by
  induction docs with
  | nil => simp at hd
  | cons x rest ih =>
    by_cases hx : (x.id == sid) = true
    · have h2 : List.find? (fun y => y.id == sid) (x :: rest) = some x :=
        List.find?_cons_of_pos _ hx
      rw [hd] at h2
      simp only [Option.some.injEq] at h2
      subst h2
      show _ ∈ (if (d.id == sid) = true then { d with status := "ended" } :: rest
        else d :: mark_session_ended rest sid)
      rw [if_pos hx]
      exact List.mem_cons_self _ _
    · have h2 : List.find? (fun y => y.id == sid) (x :: rest)
          = List.find? (fun y => y.id == sid) rest := List.find?_cons_of_neg _ hx
      rw [h2] at hd
      show _ ∈ (if (x.id == sid) = true then { x with status := "ended" } :: rest
        else x :: mark_session_ended rest sid)
      rw [if_neg hx]
      exact List.mem_cons_of_mem x (ih hd)

/-- C10: for ANY sender — with no check that the sender belongs to the named
session or is paired with the named partner — the skip/disconnect branch
marks the named session ended, drops it from `active_sessions`, and delivers
`partner_disconnected` to the named connected participant; `skip` also
answers the caller with `ready_to_match`. -/
theorem C10_skip_disconnect_unchecked (st : ServerState) (sender : String)
    (isSkip : Bool) (sid pid : String) (hsid : ¬ sid = "") (hpid : ¬ pid = "")
    (hconn : st.connections.any (fun c => c.1 == pid) = true) :
    handle_skip_disconnect st sender isSkip (some sid) (some pid)
      = ({ st with chat_sessions := mark_session_ended st.chat_sessions sid,
                   active_sessions := st.active_sessions.filter (fun p => !(p.1 == sid)) },
         (pid, OutMsg.partnerDisconnected)
           :: (if isSkip then [(sender, OutMsg.readyToMatch)] else [])) ∧
    (∀ d, st.chat_sessions.find? (fun x => x.id == sid) = some d →
      ({ d with status := "ended" }) ∈ mark_session_ended st.chat_sessions sid) := by
  constructor
  · simp only [handle_skip_disconnect]
    rw [if_neg (show ¬ ((sid == "") = true) by simp [hsid]),
      if_pos (by simp [truthyOpt, hpid, hconn]), List.singleton_append]
  · intro d hd
    exact mark_session_ended_mem st.chat_sessions sid d hd

/-- Closed witness for C10: a sender unrelated to session "s1" and not paired
with "bob" still ends the session and signals "bob". -/
theorem C10_skip_disconnect_unchecked_witness :
    handle_skip_disconnect
        ⟨[], [("bob", 3)], [("s1", "x", "y")],
          [⟨"s1", "x", "y", "active", "text"⟩], []⟩
        "mallory" true (some "s1") (some "bob")
      = (⟨[], [("bob", 3)], [], [⟨"s1", "x", "y", "ended", "text"⟩], []⟩,
         [("bob", OutMsg.partnerDisconnected), ("mallory", OutMsg.readyToMatch)]) := by
  have h := (C10_skip_disconnect_unchecked
    ⟨[], [("bob", 3)], [("s1", "x", "y")], [⟨"s1", "x", "y", "active", "text"⟩], []⟩
    "mallory" true "s1" "bob" (by decide) (by decide) (by decide)).1
  rw [h]
  decide

end Server
